import Mathlib

/-!
# Verification of the guest-data import pipeline

Shallow embedding of the core of `pages/1_Guest_Import.py` (a pandas-based
guest-list cleaning pipeline): field normalizers (phone formatting, full-name
splitting, marketing-consent resolution), the validation/deletion rules, the
`originalGuestId` identity rules, the deduplication (groupby/agg) step, the
output chunker and the final column selection, and the persisted mapping
store's `load_mappings`.

Cell values of the working table are modelled by `Val`: pandas cells here are
either missing (`NaN`/`NA`), strings (every CSV cell is read with `dtype=str`
and `fillna('')`), or booleans (the normalized `emailMarketingOk` column).
A row is an association list from column name to `Val`; the column set of a
table is carried separately, mirroring the `'col' in df.columns` checks.
-/

/-- A pandas cell value: missing (`NaN`), a string, or a boolean. -/
inductive Val where
  | na : Val
  | str : String → Val
  | bool : Bool → Val
deriving DecidableEq, Repr

/-- A row of the working table: column name ↦ value. -/
abbrev Row := List (String × Val)

/-- Value of column `c` in row `r`; a column missing from the row reads as
`NA` (well-formed tables carry every column of the table in every row). -/
def getV (r : Row) (c : String) : Val :=
  match r.find? (fun p => p.1 = c) with
  | some p => p.2
  | none => Val.na

/-- Python's `str.strip()`: remove leading and trailing whitespace.
(Python strips Unicode whitespace; inputs are modelled as ASCII text.) -/
def pystrip (s : String) : String :=
  String.mk (((s.data.dropWhile Char.isWhitespace).reverse.dropWhile
      Char.isWhitespace).reverse)

/-- Python's `str.lower()`. (Python lowercases full Unicode; `Char.toLower`
covers the ASCII range, which is what the truthy values use.) -/
def pylower (s : String) : String :=
  String.mk (s.data.map Char.toLower)

/-- Python's `str.startswith(pre)`. -/
def pyStartsWith (s pre : String) : Bool :=
  pre.data.isPrefixOf s.data

/-- `str.strip()` lifted to cells: pandas `.str.strip()` maps `NA` to `NA`
and strips strings. -/
def vtrim : Val → Val
  | Val.str s => Val.str (pystrip s)
  | v => v

/-- `astype(str)` rendering of a non-missing cell, as Python prints it. -/
def pyStr : Val → String
  | Val.na => "nan"
  | Val.str s => s
  | Val.bool b => if b then "True" else "False"

/-- Python's `"".join(filter(str.isdigit, phone))`: keep the digit characters.
(Python's `str.isdigit` also accepts non-ASCII digits; phone inputs are
modelled as ASCII text.) -/
def digitsOf (phone : String) : String :=
  String.mk (phone.data.filter Char.isDigit)

/-- `format_phone_number` from `pages/1_Guest_Import.py` (lines 68–88), for
string inputs. `hint` is `None` or a country calling code from
`COUNTRY_CODES` (`"44"`, `"1"`, `"33"`). -/
def format_phone_number (phone : String) (hint : Option String) : String :=
  if pystrip phone = "" then phone
  else
    let cleaned := digitsOf phone
    if pyStartsWith (pystrip phone) "+" then pystrip phone
    else if (match hint with
             | some h => pyStartsWith cleaned h
             | none => false) then "+" ++ cleaned
    else if pyStartsWith cleaned "44" ∧ cleaned.length > 10 then "+" ++ cleaned
    else if pyStartsWith cleaned "1" ∧ cleaned.length = 11 then "+" ++ cleaned
    else if pyStartsWith cleaned "33" ∧ cleaned.length > 9 then "+" ++ cleaned
    else phone

/-!
## Full-name splitting

`split_full_name` uses `str.split(r'\s+', n=1)`: the row value is split at
the first run of whitespace into the part before the first whitespace
character and the part after the run ends (Python's `re.split` with
`maxsplit=1`); if the string has no whitespace there is no second part.
-/

/-- `re.split(r'\s+', s, maxsplit=1)` on the character list: the text before
the first whitespace character, and — when whitespace occurs — the text after
that whitespace run. -/
def splitOnceWS (cs : List Char) : List Char × Option (List Char) :=
  let pre := cs.takeWhile (fun c => !c.isWhitespace)
  let rem := cs.dropWhile (fun c => !c.isWhitespace)
  match rem with
  | [] => (pre, none)
  | _ => (pre, some (rem.dropWhile Char.isWhitespace))

/-- `split_full_name` (lines 58–66) as a per-value function, returning the
`(firstName_from_split, lastName_from_split)` pair: after the regex split,
rows whose second part is null (no whitespace in the name) have the single
word moved to the last-name slot and the first-name slot cleared. -/
def split_full_name (s : String) : String × String :=
  match splitOnceWS s.data with
  | (_, none) => ("", s)
  | (f, some l) => (String.mk f, String.mk l)

/-- The fill step (lines 151–154):
`df['firstName'].replace('', pd.NA).fillna(split_result)` — the split result
lands in the field only where the existing value is the empty string. -/
def fillBlank (existing fromSplit : String) : String :=
  if existing = "" then fromSplit else existing

/-!
## Marketing-consent resolution

Step 4 / lines 217–222. With "treat all non-blank as true" the column becomes
`col.str.strip().ne('')`; otherwise `col.str.lower().isin(final_truthy_values)`
where `final_truthy_values` is the store's truthy list (plus any values
confirmed this run), lowercased. Note the code lowercases but does **not**
strip the cell before the membership test, while the unknown-value detection
at line 193 uses `str.lower().str.strip()`.
-/

/-- Consent resolution applied to one cell value (lines 219–222). -/
def resolveConsent (treatAllNonBlank : Bool) (truthy : List String)
    (v : String) : Bool :=
  if treatAllNonBlank then pystrip v ≠ ""
  else truthy.contains (pylower v)

/-- The spec's wording of consent resolution: membership of the lowercased,
**trimmed** form in the truthy set. (Refinement target, from the spec's
words, to compare with `resolveConsent` from the source.) -/
def specResolveConsent (treatAllNonBlank : Bool) (truthy : List String)
    (v : String) : Bool :=
  if treatAllNonBlank then pystrip v ≠ ""
  else truthy.contains (pystrip (pylower v))

/-- The unknown-value detection of step 4 (line 193) normalizes a cell with
`str.lower().str.strip()` before comparing with the truthy list: a value is
"unknown" iff this form is non-blank and not in the list. -/
def isUnknownConsentValue (truthy : List String) (v : String) : Bool :=
  decide (pystrip (pylower v) ≠ "") && !truthy.contains (pystrip (pylower v))

/-!
## Validation and deletion (lines 238–248)
-/

/-- The contact columns, in the fixed priority order used by both the contact
validation rule and the dedup key. -/
def CONTACT_COLUMNS : List String := ["email", "phoneNumber", "mobileNumber"]

/-- Test `col.str.strip() == ''` on one cell: only a string cell stripping to
the empty string is blank — pandas `NA` compares unequal to `''`, and the
`.str` accessor leaves non-strings as `NA`. -/
def isBlankCell (v : Val) : Bool :=
  match v with
  | Val.str s => pystrip s = ""
  | _ => false

/-- The contact columns that are present in the table, in priority order
(`[col for col in ['email','phoneNumber','mobileNumber'] if col in df]`). -/
def presentContactCols (cols : List String) : List String :=
  CONTACT_COLUMNS.filter (fun c => decide (c ∈ cols))

/-- The validation/deletion stage: keep rows with a non-blank `lastName`
(dropping everything via `iloc[0:0]` when the column is absent), then — when
at least one contact column exists — drop rows whose present contact values
are all blank; report `initial_rows - len(processed_df)` as the combined
deleted count. -/
def validate (cols : List String) (rows : List Row) : List Row × Nat :=
  let r1 := if "lastName" ∈ cols then
      rows.filter (fun r => !(isBlankCell (getV r "lastName")))
    else []
  let ccols := presentContactCols cols
  let r2 := if ccols = [] then r1
    else r1.filter (fun r => !(ccols.all (fun c => isBlankCell (getV r c))))
  (r2, rows.length - r2.length)

/-!
## Identity rules for `originalGuestId` (lines 251–261)
-/

/-- `drop_duplicates(subset=[key], keep='first')`: scan the rows, keeping a
row iff its key has not been seen before. -/
def dedupFirstRows (key : Row → Val) (seen : List Val) : List Row → List Row
  | [] => []
  | r :: rs =>
    if key r ∈ seen then dedupFirstRows key seen rs
    else r :: dedupFirstRows key (key r :: seen) rs

/-- Assignment `df[c] = v` on a row: replace any existing binding of the
column and append the new one. -/
def setV (r : Row) (c : String) (v : Val) : Row :=
  r.filter (fun p => p.1 ≠ c) ++ [(c, v)]

/-- Modelled stand-in for `uuid.uuid4().hex`: a fresh token per row index.
The source draws random unique hex strings; the model only relies on (and
proves) per-row uniqueness, via an injective token generator. -/
def synthId (i : Nat) : String :=
  String.mk (List.replicate (i + 1) 'u')

/-- The `originalGuestId` stage: when the column is present, `dropna`, then
drop blank ids (`str.strip() != ''`), then `drop_duplicates(keep='first')`,
reporting the number of rows deleted; when it is absent, assign a fresh
unique id to every remaining row (no row dropped, count 0). -/
def identityStep (cols : List String) (rows : List Row) :
    List String × List Row × Nat :=
  if "originalGuestId" ∈ cols then
    let kept := rows.filter (fun r => !(getV r "originalGuestId" == Val.na))
    let kept2 := kept.filter (fun r => !(isBlankCell (getV r "originalGuestId")))
    let kept3 := dedupFirstRows (fun r => getV r "originalGuestId") [] kept2
    (cols, kept3, rows.length - kept3.length)
  else
    (cols ++ ["originalGuestId"],
     rows.enum.map (fun p => setV p.2 "originalGuestId" (Val.str (synthId p.1))),
     0)

/-!
## Deduplication / reconciliation (lines 263–291)
-/

/-- `Series.unique()`: the distinct values in first-seen order. -/
def firstSeenAux {α : Type} [DecidableEq α] (seen : List α) : List α → List α
  | [] => []
  | a :: as =>
    if a ∈ seen then firstSeenAux seen as
    else a :: firstSeenAux (a :: seen) as

/-- Distinct values of a list in first-seen order (pandas `unique`). -/
def firstSeen {α : Type} [DecidableEq α] (l : List α) : List α :=
  firstSeenAux [] l

/-- One step of the `fillna` chain building `dedup_key_series`. -/
def fillNA (v w : Val) : Val :=
  if v = Val.na then w else v

/-- Value of a column when it is present in the table, else `NA`
(`if col in processed_df.columns`). -/
def presentVal (cols : List String) (r : Row) (c : String) : Val :=
  if c ∈ cols then getV r c else Val.na

/-- Normalization of one contact cell before dedup (lines 265–267):
`col.str.strip().replace('', pd.NA)`. -/
def normContactCell (v : Val) : Val :=
  match vtrim v with
  | Val.str s => if s = "" then Val.na else Val.str s
  | w => w

/-- Apply the contact normalization to the present contact columns of a row. -/
def normContacts (cols : List String) (r : Row) : Row :=
  r.map (fun p =>
    if p.1 ∈ CONTACT_COLUMNS ∧ p.1 ∈ cols
    then (p.1, normContactCell p.2) else p)

/-- The dedup key of a row (lines 269–276): a series of `NA` filled in turn
from `email`, `phoneNumber` and `mobileNumber`, each only if that column is
present — i.e. the first non-missing contact value in priority order. -/
def dedupKeyOf (cols : List String) (r : Row) : Val :=
  fillNA (fillNA (fillNA Val.na (presentVal cols r "email"))
      (presentVal cols r "phoneNumber"))
    (presentVal cols r "mobileNumber")

/-- The grouping key `(firstName, lastName, dedup_key)` of a row; `none` when
any component is missing — `groupby` (default `dropna=True`) excludes such
rows from every group. -/
def groupKeyOf (cols : List String) (r : Row) : Option (Val × Val × Val) :=
  let f := getV r "firstName"
  let l := getV r "lastName"
  let k := dedupKeyOf cols r
  if f = Val.na ∨ l = Val.na ∨ k = Val.na then none else some (f, l, k)

/-- Append row `r` to the group of key `k`, creating the group at the end if
the key is new. -/
def insertInto (k : Val × Val × Val) (r : Row) :
    List ((Val × Val × Val) × List Row) → List ((Val × Val × Val) × List Row)
  | [] => [(k, [r])]
  | (k2, g) :: rest =>
    if k2 = k then (k2, g ++ [r]) :: rest
    else (k2, g) :: insertInto k r rest

/-- Build the groupby groups by a single scan over the rows; each group holds
its member rows in original row order. (pandas emits the groups sorted by
key; none of the verified properties depends on the order of groups, and the
first-seen order used here keeps the model executable.) -/
def buildGroups (cols : List String) (rows : List Row) :
    List ((Val × Val × Val) × List Row) :=
  rows.foldl (fun gs r =>
    match groupKeyOf cols r with
    | none => gs
    | some k => insertInto k r gs) []

/-- The rows stored for key `k` (empty when the key has no group). -/
def groupsGet (gs : List ((Val × Val × Val) × List Row))
    (k : Val × Val × Val) : List Row :=
  match gs.find? (fun p => p.1 == k) with
  | some p => p.2
  | none => []

/-- Aggregation `'first'`: pandas `GroupBy.first` takes the first
**non-missing** value of the group in row order (`NA` if none) — a blank
string is a value, not missing. -/
def aggFirst (vs : List Val) : Val :=
  ((vs.filter (fun v => !(v == Val.na))).head?).getD Val.na

/-- Aggregation `'max'` for `emailMarketingOk`: the column is boolean by this
stage (step 4 normalization), and the max of booleans is their OR; pandas
`max` skips `NA` and yields `NA` for an all-`NA` group. -/
def aggMax (vs : List Val) : Val :=
  match vs.filter (fun v => !(v == Val.na)) with
  | [] => Val.na
  | ws => Val.bool (ws.any (fun v => v == Val.bool true))

/-- Aggregation for `guestNotes`:
`', '.join(x.dropna().astype(str).unique())` — drop missing values, render,
keep first-seen distinct values (blank strings included), join with `", "`. -/
def aggNotes (vs : List Val) : Val :=
  Val.str (String.intercalate ", "
    (firstSeen ((vs.filter (fun v => !(v == Val.na))).map pyStr)))

/-- The `agg_rules` dispatch (lines 278–283). -/
def aggFor (c : String) (vs : List Val) : Val :=
  if c = "emailMarketingOk" then aggMax vs
  else if c = "guestNotes" then aggNotes vs
  else aggFirst vs

/-- The merged output row of one group: the group keys first (as `groupby`
with `as_index=False` emits them; the `dedup_key` column is dropped right
after), then each remaining column aggregated per `agg_rules`. -/
def mergeGroup (cols : List String) (k : Val × Val × Val) (g : List Row) : Row :=
  ("firstName", k.1) :: ("lastName", k.2.1) ::
    (cols.filter (fun c => c ≠ "firstName" ∧ c ≠ "lastName")).map
      (fun c => (c, aggFor c (g.map (fun r => getV r c))))

/-- The deduplication stage (lines 263–291): normalize the contact columns,
then — under the source's guard, whose `'dedup_key' in processed_df.columns`
conjunct is always true because the column is assigned unconditionally at
line 276 — group by `(firstName, lastName, dedup_key)` and aggregate; when
`firstName` or `lastName` is absent the (contact-normalized) rows pass
through. -/
def reconcile (cols : List String) (rows : List Row) :
    List String × List Row :=
  let nrows := rows.map (normContacts cols)
  if "firstName" ∈ cols ∧ "lastName" ∈ cols then
    ("firstName" :: "lastName" ::
        cols.filter (fun c => c ≠ "firstName" ∧ c ≠ "lastName"),
     (buildGroups cols nrows).map (fun p => mergeGroup cols p.1 p.2))
  else (cols, nrows)

/-- The spec's words for the claimed per-column aggregation: the first
**non-blank** value of the group (treating both missing cells and blank
strings as blank). Refinement target, to compare with `aggFirst` from the
source. -/
def specFirstNonBlank (vs : List Val) : Val :=
  ((vs.filter (fun v => !(v == Val.na) && !(v == Val.str ""))).head?).getD Val.na

/-- The spec's words for the claimed `guestNotes` aggregation: distinct
**non-blank** values joined with `", "` in first-seen order. Refinement
target, to compare with `aggNotes` from the source. -/
def specNotesUnion (vs : List Val) : Val :=
  Val.str (String.intercalate ", "
    (firstSeen ((vs.filter
      (fun v => !(v == Val.na) && !(v == Val.str ""))).map pyStr)))

/-!
## Output chunking and final column selection (lines 306–330)
-/

/-- Row limit per output file. -/
def FILE_ROW_LIMIT : Nat := 50000

/-- `num_chunks = (len(final_df) // FILE_ROW_LIMIT) + 1` (line 320). -/
def numChunks (n : Nat) : Nat := n / FILE_ROW_LIMIT + 1

/-- The chunks written into the ZIP:
`final_df.iloc[i*LIMIT:(i+1)*LIMIT]` for `i in range(num_chunks)`. -/
def chunksOf (rows : List Row) : List (List Row) :=
  (List.range (numChunks rows.length)).map
    (fun i => (rows.drop (i * FILE_ROW_LIMIT)).take FILE_ROW_LIMIT)

/-- The export: multiple chunked files only when the row count exceeds the
limit, otherwise a single file (lines 316–330). -/
def exportUnits (rows : List Row) : List (List Row) :=
  if rows.length > FILE_ROW_LIMIT then chunksOf rows else [rows]

/-- Chunk file names are numbered from 1: `f"{rid}_CLEANED_{i+1}.csv"`. -/
def chunkFileName (rid : String) (i : Nat) : String :=
  rid ++ "_CLEANED_" ++ toString (i + 1) ++ ".csv"

/-- The fixed 17-column standard schema (lines 50–54). -/
def STANDARD_COLUMNS : List String :=
  ["firstName", "lastName", "email", "phoneNumber", "mobileNumber",
   "guestNotes", "emailMarketingOk", "companyName", "address1", "address2",
   "city", "state", "country", "zipCode", "dateOfBirth", "dateOfAnniversary",
   "originalGuestId"]

/-- `final_cols = [col for col in STANDARD_COLUMNS if col in df.columns]`
(line 307). -/
def finalCols (cols : List String) : List String :=
  STANDARD_COLUMNS.filter (fun c => decide (c ∈ cols))

/-- `final_df = processed_df[final_cols]` on one row: keep exactly the
selected columns, in selection order. -/
def restrictRow (fcols : List String) (r : Row) : Row :=
  fcols.map (fun c => (c, getV r c))

/-- The final table handed to the download/chunking step (lines 307–308). -/
def finalTable (cols : List String) (rows : List Row) :
    List String × List Row :=
  (finalCols cols, rows.map (restrictRow (finalCols cols)))

/-!
## The mapping store's `load_mappings` (lines 22–41)

The persisted file state is `Option (Option Json)`: `none` when the file is
absent (`FileNotFoundError`), `some none` when its text does not parse as
JSON (`json.JSONDecodeError` — this includes an empty file), and
`some (some j)` when it parses to the JSON value `j`. Python dict keys can be
any hashable value after the coercion step, so object keys are `Json` too.
Uncaught Python exceptions are modelled as `Except.error` with the exception
name; `load_mappings` catches only `FileNotFoundError` and
`JSONDecodeError`.
-/

/-- A parsed JSON value / Python object. -/
inductive Json where
  | null : Json
  | bool : Bool → Json
  | num : Int → Json
  | str : String → Json
  | arr : List Json → Json
  | obj : List (Json × Json) → Json

/-- The special store key holding the truthy values. -/
def truthyKey : String := "_truthy_values_for_emailMarketingOk"

/-- Comparison of a dict key against the special truthy key (the only key
equality `load_mappings` performs). -/
def isTruthyKeyJson : Json → Bool
  | Json.str s => s == truthyKey
  | _ => false

/-- The default truthy set. -/
def defaultTruthyList : List String := ["yes", "true", "1", "y"]

/-- The bootstrap store written and returned when the file is missing or its
text fails to parse (lines 34–41). -/
def default_mappings : List (Json × Json) :=
  [(Json.str truthyKey, Json.arr (defaultTruthyList.map Json.str)),
   (Json.str "firstName",
     Json.obj [(Json.str "First Name", Json.num 3),
               (Json.str "FirstName", Json.num 3)]),
   (Json.str "lastName",
     Json.obj [(Json.str "Last Name", Json.num 3),
               (Json.str "LastName", Json.num 3),
               (Json.str "Surname", Json.num 3)])]

/-- Whether a Python value is hashable (usable as a dict key). -/
def isHashable : Json → Bool
  | Json.arr _ => false
  | Json.obj _ => false
  | _ => true

/-- `{item: MAPPING_CONFIRMATION_THRESHOLD for item in value}` applied to a
non-special entry value (line 31): a dict is kept as is; iterating a list
yields its items (each must be hashable; a duplicate item would collapse to
one key, which changes nothing here since every value is the threshold 3);
iterating a string yields its one-character substrings; numbers, booleans
and `None` are not iterable and raise `TypeError`. -/
def coerceEntry : Json → Except String Json
  | Json.obj kvs => Except.ok (Json.obj kvs)
  | Json.arr xs =>
    if xs.all isHashable
    then Except.ok (Json.obj (xs.map (fun x => (x, Json.num 3))))
    else Except.error "TypeError: unhashable type"
  | Json.str s =>
    Except.ok (Json.obj (s.data.map
      (fun c => (Json.str (String.mk [c]), Json.num 3))))
  | _ => Except.error "TypeError: object is not iterable"

/-- `load_mappings` (lines 22–41): missing file or undecodable text yield the
persisted defaults; a JSON object gets the truthy entry ensured (appended at
the end, as dict assignment does) and every non-special, non-dict value
coerced; any other JSON value raises — the membership test, item assignment
or `.items()` call fails on a non-dict (`TypeError`/`AttributeError`),
none of which the `except` clause catches. -/
def loadMappings (fs : Option (Option Json)) :
    Except String (List (Json × Json)) :=
  match fs with
  | none => Except.ok default_mappings
  | some none => Except.ok default_mappings
  | some (some (Json.obj kvs)) =>
    let kvs2 := if kvs.any (fun p => isTruthyKeyJson p.1) then kvs
      else kvs ++ [(Json.str truthyKey,
        Json.arr (defaultTruthyList.map Json.str))]
    kvs2.mapM (fun p =>
      if isTruthyKeyJson p.1 then Except.ok p
      else (coerceEntry p.2).map (fun v2 => (p.1, v2)))
  | some (some _) => Except.error "TypeError: non-object mapping data"

/-!
## Theorems
-/

/-- A whitespace character is not a digit. -/
theorem ws_not_digit {c : Char} (h : c.isWhitespace = true) : c.isDigit = false := by
  simp only [Char.isWhitespace, Bool.or_eq_true, decide_eq_true_eq] at h
  rcases h with ((rfl | rfl) | rfl) | rfl <;> rfl

/-- If stripping a string leaves nothing, every character is whitespace. -/
theorem all_ws_of_pystrip_empty {s : String} (h : pystrip s = "") :
    ∀ c ∈ s.data, c.isWhitespace = true := by
  have hdata := congrArg String.data h
  simp only [pystrip] at hdata
  have hrev : (s.data.dropWhile Char.isWhitespace).reverse.dropWhile
      Char.isWhitespace = [] := by
    simpa using hdata
  have hdrop : ∀ c ∈ s.data.dropWhile Char.isWhitespace, c.isWhitespace = true := by
    intro c hc
    exact (List.dropWhile_eq_nil_iff.mp hrev) c (List.mem_reverse.mpr hc)
  intro c hc
  rw [← List.takeWhile_append_dropWhile (p := Char.isWhitespace) (l := s.data)] at hc
  rcases List.mem_append.mp hc with hc | hc
  · exact List.mem_takeWhile_imp hc
  · exact hdrop c hc

/-- A string of whitespace contains no digit characters. -/
theorem digitsOf_of_pystrip_empty {s : String} (h : pystrip s = "") :
    digitsOf s = "" := by
  have hall := all_ws_of_pystrip_empty h
  simp only [digitsOf]
  have : s.data.filter Char.isDigit = [] := by
    rw [List.filter_eq_nil_iff]
    intro a ha
    simp [ws_not_digit (hall a ha)]
  rw [this]

/-- C4: phone formatting follows the claim's decision tree: `+`-prefixed
(after trimming) values are returned trimmed and otherwise unprocessed; else
the digit string `d` gets `+` prepended when it starts with the given hint
code, or when one of the fixed country heuristics (`44`/longer than 10,
`1`/exactly 11, `33`/longer than 9) matches; otherwise the original value is
returned unchanged. (`hint ≠ some ""` holds for all real hints: `None` or a
`COUNTRY_CODES` value.) -/
theorem format_phone_number_spec (phone : String) (hint : Option String)
    (hne : hint ≠ some "") :
    (pyStartsWith (pystrip phone) "+" = true →
        format_phone_number phone hint = pystrip phone)
    ∧ (pyStartsWith (pystrip phone) "+" = false →
        ((∃ h, hint = some h ∧ pyStartsWith (digitsOf phone) h = true) →
            format_phone_number phone hint = "+" ++ digitsOf phone)
        ∧ ((∀ h, hint = some h → pyStartsWith (digitsOf phone) h = false) →
            (((pyStartsWith (digitsOf phone) "44" ∧ (digitsOf phone).length > 10)
              ∨ (pyStartsWith (digitsOf phone) "1" ∧ (digitsOf phone).length = 11)
              ∨ (pyStartsWith (digitsOf phone) "33" ∧ (digitsOf phone).length > 9)) →
                format_phone_number phone hint = "+" ++ digitsOf phone)
            ∧ (¬ (pyStartsWith (digitsOf phone) "44" = true ∧ (digitsOf phone).length > 10) →
               ¬ (pyStartsWith (digitsOf phone) "1" = true ∧ (digitsOf phone).length = 11) →
               ¬ (pyStartsWith (digitsOf phone) "33" = true ∧ (digitsOf phone).length > 9) →
                format_phone_number phone hint = phone))) := by
  simp only [format_phone_number]
  split_ifs with h0 h1 h2 h3 h4 h5
  · -- blank value: early return of the original
    have hd : digitsOf phone = "" := digitsOf_of_pystrip_empty h0
    rw [h0, hd]
    refine ⟨fun hplus => absurd hplus (by decide), fun _ => ⟨?_, fun _ => ⟨?_, fun _ _ _ => rfl⟩⟩⟩
    · rintro ⟨h, rfl, hpre⟩
      obtain ⟨d⟩ := h
      cases d with
      | nil => exact absurd rfl hne
      | cons a l => simp [pyStartsWith, List.isPrefixOf] at hpre
    · intro hdis
      exact absurd hdis (by decide)
  · -- `+`-prefixed: return the trimmed value
    refine ⟨fun _ => rfl, fun hf => ?_⟩
    rw [h1] at hf
    exact Bool.noConfusion hf
  · -- hint prefix matched
    refine ⟨fun h => absurd h h1, fun _ => ⟨fun _ => rfl, fun hall => ?_⟩⟩
    cases hint with
    | none => exact Bool.noConfusion h2
    | some h =>
      have h2x : pyStartsWith (digitsOf phone) h = true := h2
      rw [hall h rfl] at h2x
      exact Bool.noConfusion h2x
  · -- UK heuristic
    exact ⟨fun h => absurd h h1,
      fun _ => ⟨fun _ => rfl, fun _ => ⟨fun _ => rfl, fun n44 _ _ => absurd h3 n44⟩⟩⟩
  · -- US/Canada heuristic
    exact ⟨fun h => absurd h h1,
      fun _ => ⟨fun _ => rfl, fun _ => ⟨fun _ => rfl, fun _ n1 _ => absurd h4 n1⟩⟩⟩
  · -- France heuristic
    exact ⟨fun h => absurd h h1,
      fun _ => ⟨fun _ => rfl, fun _ => ⟨fun _ => rfl, fun _ _ n33 => absurd h5 n33⟩⟩⟩
  · -- no rule matched: original value unchanged
    refine ⟨fun h => absurd h h1, fun _ => ⟨?_, fun _ => ⟨?_, fun _ _ _ => rfl⟩⟩⟩
    · rintro ⟨h, rfl, hpre⟩
      have h2x : ¬ (pyStartsWith (digitsOf phone) h = true) := h2
      exact absurd hpre h2x
    · rintro (hd | hd | hd)
      · exact absurd hd h3
      · exact absurd hd h4
      · exact absurd hd h5

/-- Witness for C4: a bare UK number gets `+` prepended. -/
theorem format_phone_number_spec_wit :
    format_phone_number "442071234567" none = "+442071234567" := by
  have h := (((format_phone_number_spec "442071234567" none (by decide)).2
      (by decide)).2 (fun h hsome => Option.noConfusion hsome)).1
      (Or.inl (by decide))
  exact h.trans (by decide)

/-- C5: `split_full_name` divides the name at the first whitespace run — the
first component has no whitespace, the removed separator is a nonempty
whitespace run, and the rest starts with a non-whitespace character (or is
empty); a name with no whitespace at all lands entirely in the last-name
component with an empty first name; and the fill step writes a split result
only over a blank existing field. -/
theorem split_full_name_spec (s : String) (ex sp : String) :
    ((∀ c ∈ s.data, c.isWhitespace = false) → split_full_name s = ("", s))
    ∧ ((∃ c ∈ s.data, c.isWhitespace = true) →
        ∃ w : List Char,
          s.data = (split_full_name s).1.data ++ w ++ (split_full_name s).2.data
          ∧ w ≠ []
          ∧ (∀ c ∈ w, c.isWhitespace = true)
          ∧ (∀ c ∈ (split_full_name s).1.data, c.isWhitespace = false)
          ∧ (∀ c, ((split_full_name s).2.data).head? = some c →
              c.isWhitespace = false))
    ∧ fillBlank "" sp = sp
    ∧ (ex ≠ "" → fillBlank ex sp = ex) := by
  refine ⟨?_, ?_, rfl, fun h => by simp [fillBlank, h]⟩
  · intro hno
    have hrem : s.data.dropWhile (fun c => !c.isWhitespace) = [] :=
      List.dropWhile_eq_nil_iff.mpr (fun x hx => by simp [hno x hx])
    simp [split_full_name, splitOnceWS, hrem]
  · rintro ⟨c0, hc0, hwc0⟩
    have hrem_ne : s.data.dropWhile (fun c => !c.isWhitespace) ≠ [] := by
      intro hnil
      have := List.dropWhile_eq_nil_iff.mp hnil c0 hc0
      simp [hwc0] at this
    obtain ⟨a, t, hat⟩ := List.exists_cons_of_ne_nil hrem_ne
    have ha_ws : a.isWhitespace = true := by
      have hl : 0 < (s.data.dropWhile (fun c => !c.isWhitespace)).length := by
        rw [hat]; simp
      have hx := List.dropWhile_get_zero_not (fun c => !c.isWhitespace) s.data hl
      simp only [List.get_eq_getElem, hat] at hx
      simpa using hx
    have hsplit : split_full_name s =
        (String.mk (s.data.takeWhile (fun c => !c.isWhitespace)),
         String.mk ((a :: t).dropWhile Char.isWhitespace)) := by
      simp [split_full_name, splitOnceWS, hat]
    refine ⟨(a :: t).takeWhile Char.isWhitespace, ?_, ?_, ?_, ?_, ?_⟩
    · rw [hsplit]
      show s.data = s.data.takeWhile (fun c => !c.isWhitespace)
          ++ (a :: t).takeWhile Char.isWhitespace
          ++ (a :: t).dropWhile Char.isWhitespace
      rw [List.append_assoc, List.takeWhile_append_dropWhile,
        ← hat, List.takeWhile_append_dropWhile]
    · rw [List.takeWhile_cons_of_pos ha_ws]
      exact List.cons_ne_nil _ _
    · intro c hc
      exact List.mem_takeWhile_imp hc
    · rw [hsplit]
      intro c hc
      have := List.mem_takeWhile_imp (show c ∈ s.data.takeWhile
          (fun c => !c.isWhitespace) from hc)
      simpa using this
    · rw [hsplit]
      intro c hc
      cases hdd : (a :: t).dropWhile Char.isWhitespace with
      | nil =>
        rw [show (String.mk ((a :: t).dropWhile Char.isWhitespace)).data
            = (a :: t).dropWhile Char.isWhitespace from rfl, hdd] at hc
        exact Option.noConfusion hc
      | cons b u =>
        have hl : 0 < ((a :: t).dropWhile Char.isWhitespace).length := by
          rw [hdd]; simp
        have hx := List.dropWhile_get_zero_not Char.isWhitespace (a :: t) hl
        rw [show (String.mk ((a :: t).dropWhile Char.isWhitespace)).data
            = (a :: t).dropWhile Char.isWhitespace from rfl, hdd] at hc
        simp only [List.head?_cons, Option.some.injEq] at hc
        subst hc
        simp only [List.get_eq_getElem, hdd] at hx
        simpa using hx

/-- Witness for C5: `"Jane Doe"` splits into first `"Jane"`, last `"Doe"`
(shown via the decomposition), and `"Prince"` moves whole to the last name. -/
theorem split_full_name_spec_wit :
    split_full_name "Prince" = ("", "Prince")
    ∧ fillBlank "Existing" "Doe" = "Existing" := by
  exact ⟨(split_full_name_spec "Prince" "Existing" "Doe").1 (by decide),
    (split_full_name_spec "Prince" "Existing" "Doe").2.2.2 (by decide)⟩

/-- C3 (code bug): with "treat all non-blank as true" off and the default
truthy set, the cell `" yes "` resolves to `false` because line 222 tests
membership of the lowercased but *untrimmed* value, although the
unknown-value detection at line 193 lowercases **and strips** — so `" yes "`
is considered a known consent value and is never offered for clarification —
and the lowercased trimmed form `"yes"` is in the truthy set (the spec's
reading resolves it to `true`). -/
theorem resolveConsent_untrimmed_bug :
    resolveConsent false ["yes", "true", "1", "y"] " yes " = false
    ∧ isUnknownConsentValue ["yes", "true", "1", "y"] " yes " = false
    ∧ specResolveConsent false ["yes", "true", "1", "y"] " yes " = true := by
  refine ⟨by decide, by decide, by decide⟩

/-- The two consent readings agree on the "treat all non-blank" path and on
already-trimmed values: the divergence of `resolveConsent_untrimmed_bug` is
exactly about surrounding whitespace. -/
theorem resolveConsent_trimmed_agree (truthy : List String) (v : String)
    (hv : pystrip (pylower v) = pylower v) :
    resolveConsent false truthy v = specResolveConsent false truthy v := by
  simp [resolveConsent, specResolveConsent, hv]

/-- Witness: the agreement theorem applied to the value `"yes"`. -/
theorem resolveConsent_trimmed_agree_wit :
    resolveConsent false ["yes"] "yes" = specResolveConsent false ["yes"] "yes" :=
  resolveConsent_trimmed_agree ["yes"] "yes" (by decide)

/-- C6: validation keeps exactly the rows with a non-blank `lastName` that
also pass the contact rule — some present contact column non-blank, the rule
being vacuous when no contact column exists; an absent `lastName` column
drops every row; and the reported count is the single combined number of
deleted rows. -/
theorem validate_spec (cols : List String) (rows : List Row) :
    (¬ ("lastName" ∈ cols) →
        (validate cols rows).1 = [] ∧ (validate cols rows).2 = rows.length)
    ∧ ("lastName" ∈ cols →
        (validate cols rows).1 = rows.filter (fun r =>
          !(isBlankCell (getV r "lastName"))
          && (decide (presentContactCols cols = [])
              || !((presentContactCols cols).all
                    (fun c => isBlankCell (getV r c))))))
    ∧ (validate cols rows).1.length + (validate cols rows).2 = rows.length := by
  refine ⟨fun hln => ?_, fun hln => ?_, ?_⟩
  · simp [validate, hln]
  · simp only [validate, hln, if_true]
    by_cases hE : presentContactCols cols = []
    · simp only [hE, if_true]
      refine (List.filter_congr (fun r _ => ?_)).symm
      simp [hE]
    · simp only [hE, if_false, List.filter_filter]
      refine List.filter_congr (fun r _ => ?_)
      simp [hE, Bool.and_comm]
  · have h1 : (validate cols rows).1.length ≤ rows.length := by
      simp only [validate]
      by_cases hln : "lastName" ∈ cols
      · by_cases hE : presentContactCols cols = []
        · simpa [hln, hE] using List.length_filter_le _ rows
        · simp only [hln, if_true, hE, if_false]
          exact le_trans (List.length_filter_le _ _) (List.length_filter_le _ rows)
      · simp [hln]
    have h2 : (validate cols rows).2 = rows.length - (validate cols rows).1.length := rfl
    omega

/-- Witness for C6: with no `lastName` column every row is dropped and the
count equals the table size; with both rules active, a blank-`lastName` row
and an all-blank-contacts row are dropped. -/
theorem validate_spec_wit :
    (validate ["email"] [[("email", Val.str "a@b")]]).1 = []
    ∧ (validate ["email"] [[("email", Val.str "a@b")]]).2 = 1
    ∧ (validate ["lastName", "email"]
        [[("lastName", Val.str " "), ("email", Val.str "a@b")],
         [("lastName", Val.str "Doe"), ("email", Val.str " ")],
         [("lastName", Val.str "Doe"), ("email", Val.str "a@b")]]).1
      = [[("lastName", Val.str "Doe"), ("email", Val.str "a@b")]] := by
  refine ⟨((validate_spec ["email"] _).1 (by decide)).1,
    ((validate_spec ["email"] _).1 (by decide)).2,
    ((validate_spec ["lastName", "email"] _).2.1 (by decide)).trans (by decide)⟩

/-- `drop_duplicates(keep='first')` only removes rows: the result is a
sublist of the input (original order preserved). -/
theorem dedupFirstRows_sublist (key : Row → Val) (seen : List Val)
    (l : List Row) : (dedupFirstRows key seen l).Sublist l := by
  induction l generalizing seen with
  | nil => simp [dedupFirstRows]
  | cons r rs ih =>
    by_cases hs : key r ∈ seen
    · simp only [dedupFirstRows, if_pos hs]
      exact (ih seen).cons r
    · simp only [dedupFirstRows, if_neg hs]
      exact (ih (key r :: seen)).cons₂ r

/-- After `drop_duplicates(keep='first')` the keys are pairwise distinct and
none of them was in the already-seen set. -/
theorem dedupFirstRows_nodup (key : Row → Val) (seen : List Val)
    (l : List Row) :
    ((dedupFirstRows key seen l).map key).Nodup
    ∧ ∀ v ∈ (dedupFirstRows key seen l).map key, v ∉ seen := by
  induction l generalizing seen with
  | nil => simp [dedupFirstRows]
  | cons r rs ih =>
    by_cases hs : key r ∈ seen
    · simpa only [dedupFirstRows, if_pos hs] using ih seen
    · simp only [dedupFirstRows, if_neg hs, List.map_cons, List.nodup_cons]
      obtain ⟨ih1, ih2⟩ := ih (key r :: seen)
      refine ⟨⟨fun hmem => ?_, ih1⟩, ?_⟩
      · exact (ih2 _ hmem) (List.mem_cons_self _ _)
      · intro v hv
        rcases List.mem_cons.mp hv with rfl | hv2
        · exact hs
        · exact fun hvs => (ih2 v hv2) (List.mem_cons_of_mem _ hvs)

/-- For any key value not already seen, the first kept row with that key is
the first input row with that key: keep-first semantics. -/
theorem dedupFirstRows_find (key : Row → Val) (seen : List Val)
    (l : List Row) (v : Val) (hv : v ∉ seen) :
    (dedupFirstRows key seen l).find? (fun r => key r == v)
      = l.find? (fun r => key r == v) := by
  induction l generalizing seen with
  | nil => simp [dedupFirstRows]
  | cons r rs ih =>
    by_cases hk : key r = v
    · have hs : ¬ key r ∈ seen := by rw [hk]; exact hv
      simp only [dedupFirstRows, if_neg hs]
      rw [List.find?_cons_of_pos _ (by simp [hk]),
        List.find?_cons_of_pos _ (by simp [hk])]
    · by_cases hs : key r ∈ seen
      · simp only [dedupFirstRows, if_pos hs]
        rw [ih seen hv, List.find?_cons_of_neg _ (by simp [hk])]
      · simp only [dedupFirstRows, if_neg hs]
        rw [List.find?_cons_of_neg _ (by simp [hk]),
          List.find?_cons_of_neg _ (by simp [hk])]
        refine ih (key r :: seen) ?_
        intro hmem
        rcases List.mem_cons.mp hmem with rfl | hmem2
        · exact hk rfl
        · exact hv hmem2

/-- Reading back a column just assigned to a row yields the assigned value. -/
theorem getV_setV (r : Row) (c : String) (v : Val) :
    getV (setV r c v) c = v := by
  induction r with
  | nil => simp [getV, setV]
  | cons p r ih =>
    by_cases hp : p.1 = c
    · simpa [setV, List.filter_cons, hp] using ih
    · simpa [setV, List.filter_cons, hp, getV, List.find?_cons, hp] using ih

/-- The modelled id generator hands out pairwise distinct tokens. -/
theorem synthId_injective : Function.Injective synthId := by
  intro i j h
  have hd := congrArg String.data h
  simp only [synthId] at hd
  have hl := congrArg List.length hd
  simp only [List.length_replicate] at hl
  omega

/-- C7: when `originalGuestId` is a column, the identity stage keeps (in
original order) a subset of the rows whose id is neither missing nor blank,
the kept ids are pairwise distinct, and for every id value the kept row is
the first non-blank-id row bearing it (keep-first); when the column is
absent, no row is dropped and every row receives a fresh id, distinct per
row index. -/
theorem identityStep_spec (cols : List String) (rows : List Row) :
    ("originalGuestId" ∈ cols →
      (identityStep cols rows).2.1.Sublist
          ((rows.filter (fun r => !(getV r "originalGuestId" == Val.na))).filter
            (fun r => !(isBlankCell (getV r "originalGuestId"))))
      ∧ ((identityStep cols rows).2.1.map
          (fun r => getV r "originalGuestId")).Nodup
      ∧ (∀ v : Val, (identityStep cols rows).2.1.find?
            (fun r => getV r "originalGuestId" == v)
          = ((rows.filter (fun r => !(getV r "originalGuestId" == Val.na))).filter
              (fun r => !(isBlankCell (getV r "originalGuestId")))).find?
            (fun r => getV r "originalGuestId" == v)))
    ∧ (¬ ("originalGuestId" ∈ cols) →
      (identityStep cols rows).2.1.length = rows.length
      ∧ (identityStep cols rows).2.2 = 0
      ∧ (∀ i (hi : i < (identityStep cols rows).2.1.length),
          getV ((identityStep cols rows).2.1.get ⟨i, hi⟩) "originalGuestId"
            = Val.str (synthId i))
      ∧ Function.Injective synthId) := by
  constructor
  · intro hoid
    simp only [identityStep, if_pos hoid]
    exact ⟨dedupFirstRows_sublist _ [] _,
      (dedupFirstRows_nodup _ [] _).1,
      fun v => dedupFirstRows_find _ [] _ v (List.not_mem_nil v)⟩
  · intro hoid
    have hid : identityStep cols rows
        = (cols ++ ["originalGuestId"],
           rows.enum.map (fun p => setV p.2 "originalGuestId"
             (Val.str (synthId p.1))), 0) := by
      simp [identityStep, hoid]
    rw [hid]
    refine ⟨by simp, rfl, fun i hi => ?_, synthId_injective⟩
    simp only [List.get_eq_getElem, List.getElem_map, List.getElem_enum]
    exact getV_setV _ _ _

/-- Witness for C7: a blank id and a duplicate id are dropped keeping the
first occurrence; without the column every row gets a distinct fresh id. -/
theorem identityStep_spec_wit :
    ((identityStep ["originalGuestId"]
        [[("originalGuestId", Val.str "a")], [("originalGuestId", Val.str " ")],
         [("originalGuestId", Val.str "a")], [("originalGuestId", Val.str "b")]]).2.1.map
      (fun r => getV r "originalGuestId")).Nodup
    ∧ (identityStep [] [[("email", Val.str "x")]]).2.1.length = 1 := by
  exact ⟨((identityStep_spec ["originalGuestId"] _).1 (by decide)).2.1,
    ((identityStep_spec [] _).2 (by decide)).1⟩

/-- Inserting a row into the group table touches only its key's group. -/
theorem groupsGet_insertInto (gs : List ((Val × Val × Val) × List Row))
    (k k2 : Val × Val × Val) (r : Row) :
    groupsGet (insertInto k2 r gs) k
      = if k = k2 then groupsGet gs k ++ [r] else groupsGet gs k := by
  induction gs with
  | nil =>
    by_cases hk : k = k2
    · subst hk
      simp [insertInto, groupsGet]
    · simp [insertInto, groupsGet, List.find?_cons, Ne.symm hk, hk]
  | cons p rest ih =>
    obtain ⟨k3, g3⟩ := p
    by_cases h32 : k3 = k2
    · subst h32
      simp only [insertInto, if_pos rfl]
      by_cases hk : k = k3
      · subst hk
        simp [groupsGet, List.find?_cons]
      · simp [groupsGet, List.find?_cons, Ne.symm hk, hk]
    · simp only [insertInto, if_neg h32]
      by_cases hk3 : k3 = k
      · subst hk3
        simp [groupsGet, List.find?_cons, h32]
      · simp only [groupsGet, List.find?_cons]
        have hb : (k3 == k) = false := by simp [hk3]
        simp only [hb, Bool.false_eq_true, if_false]
        exact ih

/-- Scanning rows into the group table collects, for each key, exactly the
key's rows in original row order. -/
theorem buildGroups_get_aux (cols : List String) (rows : List Row)
    (gs : List ((Val × Val × Val) × List Row)) (k : Val × Val × Val) :
    groupsGet (rows.foldl (fun gs r =>
        match groupKeyOf cols r with
        | none => gs
        | some k2 => insertInto k2 r gs) gs) k
      = groupsGet gs k
        ++ rows.filter (fun r => groupKeyOf cols r == some k) := by
  induction rows generalizing gs with
  | nil => simp
  | cons r rs ih =>
    simp only [List.foldl_cons, List.filter_cons]
    cases hk2 : groupKeyOf cols r with
    | none =>
      simp only [hk2]
      rw [ih gs]
      simp
    | some k2 =>
      simp only [hk2]
      rw [ih (insertInto k2 r gs), groupsGet_insertInto]
      by_cases hk : k = k2
      · subst hk
        simp [List.append_assoc]
      · have hb : (some k2 == some k) = false := by
          simp [Ne.symm hk]
        simp [hk, hb]

/-- The key list after an insertion: unchanged when the key already has a
group, extended at the end when it is new. -/
theorem insertInto_keys (k : Val × Val × Val) (r : Row)
    (gs : List ((Val × Val × Val) × List Row)) :
    (insertInto k r gs).map Prod.fst
      = if k ∈ gs.map Prod.fst then gs.map Prod.fst
        else gs.map Prod.fst ++ [k] := by
  induction gs with
  | nil => simp [insertInto]
  | cons p rest ih =>
    obtain ⟨k3, g3⟩ := p
    by_cases h3 : k3 = k
    · subst h3
      simp [insertInto]
    · simp only [insertInto, if_neg h3, List.map_cons]
      rw [ih]
      by_cases hmem : k ∈ rest.map Prod.fst
      · simp [hmem, Ne.symm h3]
      · simp [hmem, Ne.symm h3]

/-- Group keys are pairwise distinct. -/
theorem buildGroups_keys_nodup (cols : List String) (rows : List Row) :
    ((buildGroups cols rows).map Prod.fst).Nodup := by
  suffices h : ∀ gs : List ((Val × Val × Val) × List Row),
      (gs.map Prod.fst).Nodup →
      ((rows.foldl (fun gs r =>
        match groupKeyOf cols r with
        | none => gs
        | some k2 => insertInto k2 r gs) gs).map Prod.fst).Nodup by
    exact h [] List.nodup_nil
  induction rows with
  | nil => exact fun gs hgs => hgs
  | cons r rs ih =>
    intro gs hgs
    simp only [List.foldl_cons]
    cases hk2 : groupKeyOf cols r with
    | none => exact ih gs hgs
    | some k2 =>
      refine ih (insertInto k2 r gs) ?_
      rw [insertInto_keys]
      by_cases hmem : k2 ∈ gs.map Prod.fst
      · simpa [hmem] using hgs
      · simp only [hmem, if_false]
        simp [List.nodup_append, hgs, hmem]

/-- With pairwise distinct keys, membership determines the stored group. -/
theorem groupsGet_of_mem (gs : List ((Val × Val × Val) × List Row))
    (k : Val × Val × Val) (g : List Row) (hmem : (k, g) ∈ gs)
    (hnd : (gs.map Prod.fst).Nodup) : groupsGet gs k = g := by
  induction gs with
  | nil => cases hmem
  | cons p rest ih =>
    obtain ⟨k2, g2⟩ := p
    rcases List.mem_cons.mp hmem with heq | hmem2
    · injection heq with h1 h2
      subst h1
      subst h2
      simp [groupsGet, List.find?_cons]
    · have hk2 : k2 ≠ k := by
        intro hk
        subst hk
        have : k2 ∈ rest.map Prod.fst :=
          List.mem_map_of_mem Prod.fst hmem2
        simp only [List.map_cons, List.nodup_cons] at hnd
        exact hnd.1 this
      simp only [groupsGet, List.find?_cons]
      have hb : (k2 == k) = false := by simp [hk2]
      simp only [hb, Bool.false_eq_true, if_false]
      exact ih hmem2 (by simpa using (List.nodup_cons.mp (by simpa using hnd)).2)

/-- A group found in the built group table holds exactly the input rows whose
grouping key matches, in original row order. -/
theorem buildGroups_group_eq (cols : List String) (rows : List Row)
    (k : Val × Val × Val) (g : List Row)
    (h : (k, g) ∈ buildGroups cols rows) :
    g = rows.filter (fun r => groupKeyOf cols r == some k) := by
  have h1 : groupsGet (buildGroups cols rows) k = g :=
    groupsGet_of_mem _ k g h (buildGroups_keys_nodup cols rows)
  have h2 : groupsGet (buildGroups cols rows) k
      = groupsGet [] k ++ rows.filter (fun r => groupKeyOf cols r == some k) :=
    buildGroups_get_aux cols rows [] k
  rw [h1] at h2
  simpa [groupsGet] using h2

/-- Reading an aggregated column from a constructed pair list. -/
theorem getV_map_pair (cs : List String) (f : String → Val) (c : String)
    (hc : c ∈ cs) : getV (cs.map (fun c2 => (c2, f c2))) c = f c := by
  induction cs with
  | nil => cases hc
  | cons a as ih =>
    by_cases ha : a = c
    · subst ha
      simp [getV, List.find?_cons]
    · rcases List.mem_cons.mp hc with hca | hc2
      · exact absurd hca.symm ha
      · simpa [getV, List.find?_cons, ha] using ih hc2

/-- `any` over a mapped list tests the composite on the original list. -/
theorem any_map_eq {α β : Type} (f : α → β) (p : β → Bool) (l : List α) :
    (l.map f).any p = l.any (fun a => p (f a)) := by
  induction l with
  | nil => rfl
  | cons a as ih => simp [List.any_cons, ih]

/-- The head of a filtered list is the first element satisfying the test. -/
theorem head?_filter_eq_find? {α : Type} (p : α → Bool) (l : List α) :
    (l.filter p).head? = l.find? p := by
  induction l with
  | nil => rfl
  | cons a as ih =>
    by_cases ha : p a <;> simp [List.filter_cons, List.find?_cons, ha, ih]

/-- C1 (amended): when both name columns are present, every group of the
reconciler consists of exactly the contact-normalized rows sharing its
`(firstName, lastName, dedup_key)` key, in original row order, and the single
merged output row for that group has: `emailMarketingOk` the logical OR of
the group's (boolean) values; `guestNotes` the distinct values of the group —
dropping only *missing* values, blank strings included — joined with `", "`
in first-seen order; and every other non-grouping column the first
*non-missing* value in original row order (for the contact columns the
earlier blank→`NA` normalization makes this the first non-blank value, but
for all other columns a blank string counts as a value and is kept). -/
theorem reconcile_merge_spec (cols : List String) (rows : List Row)
    (hf : "firstName" ∈ cols) (hl : "lastName" ∈ cols)
    (k : Val × Val × Val) (g : List Row)
    (hkg : (k, g) ∈ buildGroups cols (rows.map (normContacts cols))) :
    g = (rows.map (normContacts cols)).filter
        (fun r => groupKeyOf cols r == some k)
    ∧ mergeGroup cols k g ∈ (reconcile cols rows).2
    ∧ (∀ c, c ∈ cols → c ≠ "firstName" → c ≠ "lastName" →
        (c = "emailMarketingOk" →
            (∀ r ∈ g, ∃ b, getV r c = Val.bool b) → g ≠ [] →
            getV (mergeGroup cols k g) c
              = Val.bool (g.any (fun r => getV r c == Val.bool true)))
        ∧ (c = "guestNotes" →
            getV (mergeGroup cols k g) c
              = Val.str (String.intercalate ", "
                  (firstSeen (((g.map (fun r => getV r c)).filter
                      (fun v => !(v == Val.na))).map pyStr))))
        ∧ (c ≠ "emailMarketingOk" → c ≠ "guestNotes" →
            getV (mergeGroup cols k g) c
              = ((g.map (fun r => getV r c)).find?
                  (fun v => !(v == Val.na))).getD Val.na)) := by
  refine ⟨buildGroups_group_eq cols _ k g hkg, ?_, ?_⟩
  · simp only [reconcile, if_pos (And.intro hf hl)]
    exact List.mem_map_of_mem (fun p => mergeGroup cols p.1 p.2) hkg
  · intro c hc hcf hcl
    have hcm : c ∈ cols.filter (fun c => decide (c ≠ "firstName" ∧ c ≠ "lastName")) := by
      simp [List.mem_filter, hc, hcf, hcl]
    have hget : getV (mergeGroup cols k g) c
        = aggFor c (g.map (fun r => getV r c)) := by
      simp only [mergeGroup, getV, List.find?_cons]
      have hb1 : (("firstName", k.1).1 = c) = False := by
        simp [Ne.symm hcf]
      have hb2 : (("lastName", k.2.1).1 = c) = False := by
        simp [Ne.symm hcl]
      simp only [hb1, hb2, decide_False, Bool.false_eq_true, if_false]
      have := getV_map_pair
        (cols.filter (fun c => decide (c ≠ "firstName" ∧ c ≠ "lastName")))
        (fun c2 => aggFor c2 (g.map (fun r => getV r c2))) c hcm
      simpa [getV] using this
    refine ⟨?_, ?_, ?_⟩
    · intro hcem hbool hg
      subst hcem
      rw [hget]
      have hfil : (g.map (fun r => getV r "emailMarketingOk")).filter
          (fun v => !(v == Val.na)) = g.map (fun r => getV r "emailMarketingOk") := by
        refine List.filter_eq_self.mpr ?_
        intro v hv
        obtain ⟨r, hr, rfl⟩ := List.mem_map.mp hv
        obtain ⟨b, hb⟩ := hbool r hr
        simp [hb]
      have hmax : aggMax (g.map (fun r => getV r "emailMarketingOk"))
          = Val.bool ((g.map (fun r => getV r "emailMarketingOk")).any
              (fun v => v == Val.bool true)) := by
        simp only [aggMax, hfil]
        cases hgv : g.map (fun r => getV r "emailMarketingOk") with
        | nil => exact absurd (List.map_eq_nil_iff.mp hgv) hg
        | cons v vs => rfl
      rw [show aggFor "emailMarketingOk"
            (g.map (fun r => getV r "emailMarketingOk"))
          = aggMax (g.map (fun r => getV r "emailMarketingOk")) from rfl,
        hmax, any_map_eq]
    · intro hcgn
      subst hcgn
      rw [hget]
      simp [aggFor, aggNotes]
    · intro hcem hcgn
      rw [hget]
      simp only [aggFor, hcem, hcgn, if_false, aggFirst]
      rw [head?_filter_eq_find?]

/-- Counterexample to C1 as stated: in a merged group, a non-grouping,
non-contact column gets the group's first *value* — a blank string included —
not the first non-blank value, and `guestNotes` joins the distinct values
dropping only missing ones, so a blank note contributes an empty element.
Two rows with the same name and email, whose first row has `city` blank and
`guestNotes` blank, merge to `city = ""` (the claim demands `"Paris"`) and
`guestNotes = ", vip"` (the claim demands `"vip"`). -/
theorem reconcile_first_blank_cex :
    (reconcile ["firstName", "lastName", "email", "city", "guestNotes"]
      [[("firstName", Val.str "Jane"), ("lastName", Val.str "Doe"),
        ("email", Val.str "j@x.com"), ("city", Val.str ""),
        ("guestNotes", Val.str "")],
       [("firstName", Val.str "Jane"), ("lastName", Val.str "Doe"),
        ("email", Val.str "j@x.com"), ("city", Val.str "Paris"),
        ("guestNotes", Val.str "vip")]]).2
    = [[("firstName", Val.str "Jane"), ("lastName", Val.str "Doe"),
        ("email", Val.str "j@x.com"), ("city", Val.str ""),
        ("guestNotes", Val.str ", vip")]]
    ∧ specFirstNonBlank [Val.str "", Val.str "Paris"] = Val.str "Paris"
    ∧ specNotesUnion [Val.str "", Val.str "vip"] = Val.str "vip"
    ∧ Val.str "" ≠ Val.str "Paris"
    ∧ Val.str ", vip" ≠ Val.str "vip" := by
  refine ⟨by decide, by decide, by decide, by decide, by decide⟩

/-- Witness for the amended C1: the two-row group above, seen through the
general theorem — its merged row carries the first (blank) city value and
sits in the reconciler output. -/
theorem reconcile_merge_spec_wit :
    getV (mergeGroup ["firstName", "lastName", "email", "city", "guestNotes"]
      (Val.str "Jane", Val.str "Doe", Val.str "j@x.com")
      [[("firstName", Val.str "Jane"), ("lastName", Val.str "Doe"),
        ("email", Val.str "j@x.com"), ("city", Val.str ""),
        ("guestNotes", Val.str "")],
       [("firstName", Val.str "Jane"), ("lastName", Val.str "Doe"),
        ("email", Val.str "j@x.com"), ("city", Val.str "Paris"),
        ("guestNotes", Val.str "vip")]]) "city"
    = Val.str "" := by
  have h := reconcile_merge_spec
    ["firstName", "lastName", "email", "city", "guestNotes"]
    [[("firstName", Val.str "Jane"), ("lastName", Val.str "Doe"),
      ("email", Val.str "j@x.com"), ("city", Val.str ""),
      ("guestNotes", Val.str "")],
     [("firstName", Val.str "Jane"), ("lastName", Val.str "Doe"),
      ("email", Val.str "j@x.com"), ("city", Val.str "Paris"),
      ("guestNotes", Val.str "vip")]]
    (by decide) (by decide)
    (Val.str "Jane", Val.str "Doe", Val.str "j@x.com")
    [[("firstName", Val.str "Jane"), ("lastName", Val.str "Doe"),
      ("email", Val.str "j@x.com"), ("city", Val.str ""),
      ("guestNotes", Val.str "")],
     [("firstName", Val.str "Jane"), ("lastName", Val.str "Doe"),
      ("email", Val.str "j@x.com"), ("city", Val.str "Paris"),
      ("guestNotes", Val.str "vip")]]
    (by decide)
  have h2 := (h.2.2 "city" (by decide) (by decide) (by decide)).2.2
    (by decide) (by decide)
  exact h2.trans (by decide)

/-- C2 (code bug): the reconciliation guard's third conjunct
(`'dedup_key' in processed_df.columns`) is always true — the column is
assigned unconditionally at line 276 — so with no contact column present the
dedup key is `NA` for every row and `groupby` (default `dropna=True`) drops
them all: a valid contactless row vanishes instead of passing through. The
guard does work when a name column is absent: the same row then passes
through unmerged. -/
theorem reconcile_contactless_drop_bug :
    (reconcile ["firstName", "lastName", "originalGuestId"]
      [[("firstName", Val.str "Jane"), ("lastName", Val.str "Doe"),
        ("originalGuestId", Val.str "g1")]]).2 = []
    ∧ (reconcile ["lastName", "originalGuestId"]
      [[("firstName", Val.str "Jane"), ("lastName", Val.str "Doe"),
        ("originalGuestId", Val.str "g1")]]).2
      = [[("firstName", Val.str "Jane"), ("lastName", Val.str "Doe"),
          ("originalGuestId", Val.str "g1")]] := by
  refine ⟨by decide, by decide⟩

/-- Concatenating the first `K` chunks of width `FILE_ROW_LIMIT` recovers the
first `K * FILE_ROW_LIMIT` rows. -/
theorem chunks_flatten_take (l : List Row) (K : Nat) :
    ((List.range K).map
      (fun i => (l.drop (i * FILE_ROW_LIMIT)).take FILE_ROW_LIMIT)).flatten
      = l.take (K * FILE_ROW_LIMIT) := by
  induction K with
  | zero => simp
  | succ n ih =>
    rw [List.range_succ, List.map_append, List.flatten_append]
    simp only [List.map_cons, List.map_nil, List.flatten_cons,
      List.flatten_nil, List.append_nil, ih]
    rw [← List.take_add]
    have harith : n * FILE_ROW_LIMIT + FILE_ROW_LIMIT
        = (n + 1) * FILE_ROW_LIMIT := by ring
    rw [harith]

/-- C8: above the row limit the export is the chunk list — exactly
`rows // 50000 + 1` contiguous slices of at most 50000 rows each, in original
order (their concatenation is the table), chunk `i` holding rows
`i*50000 .. i*50000+49999` and written to the file numbered `i+1`; at or
below the limit the export is one single unchunked unit. -/
theorem chunking_spec (rows : List Row) :
    (rows.length > FILE_ROW_LIMIT →
        exportUnits rows = chunksOf rows
        ∧ (exportUnits rows).length = rows.length / 50000 + 1
        ∧ (∀ c ∈ exportUnits rows, c.length ≤ 50000)
        ∧ (exportUnits rows).flatten = rows
        ∧ (∀ i, i < (exportUnits rows).length →
            (exportUnits rows)[i]?
              = some ((rows.drop (i * 50000)).take 50000))
        ∧ (∀ rid i, chunkFileName rid i
            = rid ++ "_CLEANED_" ++ toString (i + 1) ++ ".csv"))
    ∧ (rows.length ≤ FILE_ROW_LIMIT → exportUnits rows = [rows]) := by
  constructor
  · intro hlen
    have hexp : exportUnits rows = chunksOf rows := by
      simp [exportUnits, hlen]
    refine ⟨hexp, ?_, ?_, ?_, ?_, fun rid i => rfl⟩
    · rw [hexp]
      simp [chunksOf, numChunks, FILE_ROW_LIMIT]
    · intro c hc
      rw [hexp] at hc
      simp only [chunksOf, List.mem_map] at hc
      obtain ⟨i, _, rfl⟩ := hc
      exact List.length_take_le FILE_ROW_LIMIT _
    · rw [hexp]
      show ((List.range (numChunks rows.length)).map
        (fun i => (rows.drop (i * FILE_ROW_LIMIT)).take FILE_ROW_LIMIT)).flatten = rows
      rw [chunks_flatten_take]
      refine List.take_of_length_le ?_
      have h1 := Nat.div_add_mod rows.length FILE_ROW_LIMIT
      have h2 : rows.length % FILE_ROW_LIMIT < FILE_ROW_LIMIT :=
        Nat.mod_lt _ (by norm_num [FILE_ROW_LIMIT])
      have h3 : (rows.length / FILE_ROW_LIMIT + 1) * FILE_ROW_LIMIT
          = FILE_ROW_LIMIT * (rows.length / FILE_ROW_LIMIT)
            + FILE_ROW_LIMIT := by ring
      simp only [numChunks] at h1 h2 h3 ⊢
      omega
    · intro i hi
      rw [hexp] at hi ⊢
      simp only [chunksOf, List.length_map, List.length_range] at hi
      simp only [chunksOf, List.getElem?_map, List.getElem?_range, hi,
        if_pos, Option.map_some]
      rfl
  · intro hlen
    simp [exportUnits, Nat.not_lt.mpr hlen]

/-- Witness for C8: a table of exactly 100000 rows splits into
`100000 / 50000 + 1 = 3` chunks whose third is empty (rows 100000 onward),
and a table of one row is exported as a single file. -/
theorem chunking_spec_wit :
    (exportUnits (List.replicate 100000 ([] : Row))).length = 3
    ∧ (exportUnits (List.replicate 100000 ([] : Row)))[2]? = some []
    ∧ exportUnits [([] : Row)] = [[([] : Row)]] := by
  have hlen : (List.replicate 100000 ([] : Row)).length > FILE_ROW_LIMIT := by
    rw [List.length_replicate]
    norm_num [FILE_ROW_LIMIT]
  have h := (chunking_spec (List.replicate 100000 ([] : Row))).1 hlen
  have hlen3 : (exportUnits (List.replicate 100000 ([] : Row))).length = 3 := by
    rw [h.2.1, List.length_replicate]
  refine ⟨hlen3, ?_, (chunking_spec [([] : Row)]).2 (by simp [FILE_ROW_LIMIT])⟩
  rw [h.2.2.2.2.1 2 (by rw [hlen3]; norm_num)]
  rw [List.drop_eq_nil_of_le (by rw [List.length_replicate])]
  rfl

/-- Every row of an export unit is a row of the exported table. -/
theorem exportUnits_mem (rows : List Row) (c : List Row) (r : Row)
    (hc : c ∈ exportUnits rows) (hr : r ∈ c) : r ∈ rows := by
  simp only [exportUnits] at hc
  by_cases hlen : rows.length > FILE_ROW_LIMIT
  · rw [if_pos hlen] at hc
    simp only [chunksOf, List.mem_map] at hc
    obtain ⟨i, _, rfl⟩ := hc
    exact List.drop_subset _ _ (List.take_subset _ _ hr)
  · rw [if_neg hlen] at hc
    rw [List.mem_singleton.mp hc] at hr
    exact hr

/-- C10: the exported table (and so every chunk of a chunked export) carries
exactly the present standard-schema columns, in the fixed schema order; any
other column is omitted. -/
theorem finalTable_spec (cols : List String) (rows : List Row) :
    (∀ c, c ∈ (finalTable cols rows).1 ↔ c ∈ STANDARD_COLUMNS ∧ c ∈ cols)
    ∧ (finalTable cols rows).1.Sublist STANDARD_COLUMNS
    ∧ (∀ r ∈ (finalTable cols rows).2, r.map Prod.fst = finalCols cols)
    ∧ (∀ c ∈ exportUnits (finalTable cols rows).2,
        ∀ r ∈ c, r.map Prod.fst = finalCols cols) := by
  have hrow : ∀ r ∈ (finalTable cols rows).2, r.map Prod.fst = finalCols cols := by
    intro r hr
    simp only [finalTable, List.mem_map] at hr
    obtain ⟨r0, _, rfl⟩ := hr
    simp only [restrictRow, List.map_map]
    exact List.map_id'' (congrFun rfl) _
  refine ⟨fun c => ?_, ?_, hrow, ?_⟩
  · simp [finalTable, finalCols, List.mem_filter]
  · exact List.filter_sublist _
  · intro c hc r hr
    exact hrow r (exportUnits_mem _ c r hc hr)

/-- Witness for C10: a passthrough column (`junk`) is omitted, the present
standard columns appear in schema order, and the exported row keeps exactly
them. -/
theorem finalTable_spec_wit :
    ((finalTable ["city", "junk", "firstName"] [[("city", Val.str "Paris"),
        ("junk", Val.str "x"), ("firstName", Val.str "Jane")]]).1
      = ["firstName", "city"])
    ∧ ¬ ("junk" ∈ (finalTable ["city", "junk", "firstName"]
        [[("city", Val.str "Paris"), ("junk", Val.str "x"),
          ("firstName", Val.str "Jane")]]).1)
    ∧ (∀ r ∈ (finalTable ["city", "junk", "firstName"]
        [[("city", Val.str "Paris"), ("junk", Val.str "x"),
          ("firstName", Val.str "Jane")]]).2,
        r.map Prod.fst = finalCols ["city", "junk", "firstName"]) := by
  refine ⟨by decide, ?_, (finalTable_spec ["city", "junk", "firstName"] _).2.2.1⟩
  intro hj
  have h := ((finalTable_spec ["city", "junk", "firstName"]
    [[("city", Val.str "Paris"), ("junk", Val.str "x"),
      ("firstName", Val.str "Jane")]]).1 "junk").mp hj
  exact absurd h.1 (by decide)

/-- C9 (amended): for file content that is absent, empty, or otherwise fails
to parse as JSON, `load_mappings` returns the default store — which contains
the truthy-value set `["yes","true","1","y"]` — without raising; content that
parses to a non-object JSON value, however, raises an uncaught error (see the
counterexample). -/
theorem loadMappings_spec (fs : Option (Option Json))
    (h : fs = none ∨ fs = some none) :
    loadMappings fs = Except.ok default_mappings
    ∧ (Json.str truthyKey,
        Json.arr ((["yes", "true", "1", "y"] : List String).map Json.str))
      ∈ default_mappings := by
  rcases h with rfl | rfl <;>
    exact ⟨rfl, by simp [default_mappings, defaultTruthyList]⟩

/-- Witness for the amended C9: the absent-file state yields the defaults. -/
theorem loadMappings_spec_wit :
    loadMappings none = Except.ok default_mappings :=
  (loadMappings_spec none (Or.inl rfl)).1

/-- Counterexample to C9 as stated: a file whose content is the valid JSON
value `42` is "arbitrarily malformed" mapping data, yet `load_mappings`
raises instead of returning a store — `42` is not a dict, so the membership
test `"_truthy_values_for_emailMarketingOk" not in mappings` (and everything
after it) raises a `TypeError` that the `except (FileNotFoundError,
JSONDecodeError)` clause does not catch. -/
theorem loadMappings_nonobject_cex :
    loadMappings (some (some (Json.num 42)))
      = Except.error "TypeError: non-object mapping data" := rfl
